import Mathlib

/-
Verification development for the EPICS channel-access C++ wrapper.

The repository holds two draft variants of the same proxy layer:
  * an inline class `EpicsProxy` (src/src/EpicsProxy.cpp) keeping a map
    from channel ids (chid) to lists of event ids (evid);
  * a class `PV` (src/src/PV.cpp) keeping one channel and a list of
    monitors, with a second, older header-only draft of `PV`
    (src/include/PV.h) whose `_clear_channel` differs.

The channel-access library (ca_* functions) is the external transport.
It is modelled as a state carrying a server table (PV name to record),
the live channels, the live subscriptions and a trace of transport
calls.  Every modelled ca_* call succeeds (returns ECA_NORMAL), so each
SEVCHK macro in the source is a no-op in the model; the exceptions the
wrapper itself raises with `throw std::runtime_error` are modelled
through an error monad, as are the undefined behaviours the source can
reach (reading an uninitialised local, indexing an empty vector,
falling off the end of a non-void function).
-/

/- DBR wire-type tags, with the numeric values of db_access.h.
Note DBR_INT and DBR_SHORT are the same tag. -/

def DBR_STRING : Nat := 0

def DBR_INT : Nat := 1

def DBR_SHORT : Nat := 1

def DBR_FLOAT : Nat := 2

def DBR_ENUM : Nat := 3

def DBR_CHAR : Nat := 4

def DBR_LONG : Nat := 5

def DBR_DOUBLE : Nat := 6

/- The closed list of supported wire types shared by both drafts
(EpicsProxy.cpp line 201, PV.h line 23). -/

def allowed_types : List Nat :=
  [DBR_DOUBLE, DBR_FLOAT, DBR_ENUM, DBR_SHORT, DBR_CHAR, DBR_STRING, DBR_LONG]

/- A host value held in a `std::any`.  The transport only ever copies
values, so scalar carriers are opaque bit patterns; a string travels
through a fixed 40-byte `dbr_string_t` buffer (39 content characters
plus the terminator).  `VArray` stands for a `std::vector` of one of
the seven element types, which `_write_pv` rejects. -/

inductive HostValue where
  | VDouble (bits : Nat)
  | VFloat (bits : Nat)
  | VEnum (v : Nat)
  | VShort (v : Int)
  | VChar (v : Nat)
  | VString (chars : List Char)
  | VLong (v : Int)
  | VArray (elemTag : Nat) (len : Nat)
deriving DecidableEq

def HostValue.isVector : HostValue → Bool
  | .VArray _ _ => true
  | _ => false

/- One process variable on the server side: negotiated wire type,
element count, current value. -/

structure PVRecord where
  ftype : Nat
  count : Nat
  value : HostValue
deriving DecidableEq

/- Trace of transport-level calls issued by the wrapper. -/

inductive CAEvent where
  | createChannel (name : String) (ch : Nat)
  | clearChannel (ch : Nat)
  | createSubscription (ch : Nat) (ev : Nat)
  | clearSubscription (ev : Nat)
  | getEv (ch : Nat) (t : Nat)
  | putEv (ch : Nat) (t : Nat) (v : HostValue)
  | arrayPutEv (ch : Nat) (t : Nat) (n : Nat)
  | contextDestroy
deriving DecidableEq

/- Abnormal outcomes: wrapper-thrown std::runtime_error, a failing
std::any_cast, and the two kinds of undefined behaviour the source can
reach (out-of-bounds vector indexing; reading an uninitialised local or
falling off the end of a value-returning function). -/

inductive Err where
  | runtimeError (msg : String)
  | badAnyCast
  | outOfBounds
  | undefinedBehavior
deriving DecidableEq

/- The world state: the transport plus the mutable members of the
EpicsProxy draft (m_chidEventIDMap, error, currentStatus).  Handles are
positive; 0 plays the role of a NULL chid/evid. -/

structure St where
  server : List (String × PVRecord)
  chans : List (Nat × String)
  subs : List (Nat × Nat)
  nextCh : Nat
  nextEv : Nat
  emap : List (Nat × List Nat)
  perror : String
  currentStatus : Nat
  trace : List CAEvent
deriving DecidableEq

def M (α : Type) : Type := St → Except Err α × St

instance : Monad M where
  pure a := fun s => (.ok a, s)
  bind x f := fun s =>
    match x s with
    | (.ok a, s1) => f a s1
    | (.error e, s1) => (.error e, s1)

def mget : M St := fun s => (.ok s, s)

def mset (s1 : St) : M Unit := fun _ => (.ok (), s1)

def mthrow {α : Type} (e : Err) : M α := fun s => (.error e, s)

/- `error = msg; throw std::runtime_error(msg)` - the pattern the
source uses on every checked failure. -/

def throw_error {α : Type} (msg : String) : M α := fun s =>
  (.error (.runtimeError msg), { s with perror := msg ++ "\n" })

def liftE {α : Type} (x : Except Err α) : M α := fun s => (x, s)

/- Association-list lookups (std::map::find). -/

def lookupA {β : Type} : List (Nat × β) → Nat → Option β
  | [], _ => none
  | (k, v) :: t, key => if k = key then some v else lookupA t key

def lookupS {β : Type} : List (String × β) → String → Option β
  | [], _ => none
  | (k, v) :: t, key => if k = key then some v else lookupS t key

/- Transport primitives. -/

def ca_create_channel (name : String) : M Nat := fun s =>
  (.ok s.nextCh,
    { s with nextCh := s.nextCh + 1,
             chans := s.chans ++ [(s.nextCh, name)],
             trace := s.trace ++ [.createChannel name s.nextCh] })

def ca_pend_io : M Unit := pure ()

def chan_name (s : St) (ch : Nat) : Option String := lookupA s.chans ch

def chan_record (s : St) (ch : Nat) : Option PVRecord :=
  match chan_name s ch with
  | some n => lookupS s.server n
  | none => none

/- ca_name / ca_field_type / ca_element_count / ca_state on a handle
that is not a live channel dereference freed or garbage memory. -/

def ca_name (ch : Nat) : M String := fun s =>
  match chan_name s ch with
  | some n => (.ok n, s)
  | none => (.error .undefinedBehavior, s)

def ca_field_type (ch : Nat) : M Nat := fun s =>
  match chan_record s ch with
  | some r => (.ok r.ftype, s)
  | none => (.error .undefinedBehavior, s)

def ca_element_count (ch : Nat) : M Nat := fun s =>
  match chan_record s ch with
  | some r => (.ok r.count, s)
  | none => (.error .undefinedBehavior, s)

def ca_state_conn (ch : Nat) : M Bool := fun s =>
  match chan_name s ch with
  | some n => (.ok (lookupS s.server n).isSome, s)
  | none => (.error .undefinedBehavior, s)

/- A DBR_STRING put travels through the fixed 40-byte buffer: at most
39 content characters arrive. -/

def put_store (t : Nat) (v : HostValue) : HostValue :=
  match v with
  | .VString cs => if t = DBR_STRING then .VString (cs.take 39) else v
  | _ => v

def update_server :
    List (String × PVRecord) → String → Nat → HostValue → List (String × PVRecord)
  | [], _, _, _ => []
  | (k, r) :: tl, name, t, v =>
      if k = name then (k, { r with value := put_store t v }) :: tl
      else (k, r) :: update_server tl name t v

def ca_put (ch : Nat) (t : Nat) (v : HostValue) : M Unit := fun s =>
  match chan_name s ch with
  | some n =>
      (.ok (), { s with server := update_server s.server n t v,
                        trace := s.trace ++ [.putEv ch t v] })
  | none => (.error .undefinedBehavior, s)

def ca_get (ch : Nat) (t : Nat) : M HostValue := fun s =>
  match chan_record s ch with
  | some r => (.ok r.value, { s with trace := s.trace ++ [.getEv ch t] })
  | none => (.error .undefinedBehavior, s)

def ca_clear_channel (ch : Nat) : M Unit := fun s =>
  (.ok (), { s with chans := s.chans.filter (fun p => p.1 != ch),
                    trace := s.trace ++ [.clearChannel ch] })

def ca_clear_subscription (ev : Nat) : M Unit := fun s =>
  (.ok (), { s with subs := s.subs.filter (fun p => p.1 != ev),
                    trace := s.trace ++ [.clearSubscription ev] })

def ca_create_subscription (ch : Nat) : M Nat := fun s =>
  (.ok s.nextEv,
    { s with nextEv := s.nextEv + 1,
             subs := s.subs ++ [(s.nextEv, ch)],
             trace := s.trace ++ [.createSubscription ch s.nextEv] })

def ca_context_destroy : M Unit := fun s =>
  (.ok (), { s with trace := s.trace ++ [.contextDestroy] })

/- The pure MSTA-to-NOMAD status translation
(src/src/epicsCallbacks.cpp lines 78-108): an if/else-if chain over
MSTA bit positions writing exactly one NOMAD flag. -/

def msta_to_nomad (msta : Nat) : Nat :=
  if msta &&& (1 <<< 1) != 0 then 0x10
  else if msta &&& (1 <<< 2) != 0 then 0x4
  else if msta &&& (1 <<< 6) != 0 then 0x2
  else if msta &&& (1 <<< 7) != 0 then 0x10
  else if msta &&& (1 <<< 9) != 0 then 0x1
  else if msta &&& (1 <<< 10) != 0 then 0x2
  else if msta &&& (1 <<< 12) != 0 then 0x1
  else if msta &&& (1 <<< 13) != 0 then 0x8
  else if msta &&& (1 <<< 14) != 0 then 0x10
  else 0x1

/- epics::msta_to_nomad_status ends by storing the translation into the
currentStatus member of the proxy. -/

def msta_to_nomad_status (s : St) (msta : Nat) : St :=
  { s with currentStatus := msta_to_nomad msta }

/- Modelled from the spec: the claim describes the translation as
taking the FIRST set bit among positions 1, 2, 6, 7, 9, 10, 12, 13, 14
in that fixed order, mapping it through the table below, with 0x1 when
none of those bits is set. -/

def nomad_table : List (Nat × Nat) :=
  [(1, 0x10), (2, 0x4), (6, 0x2), (7, 0x10), (9, 0x1),
   (10, 0x2), (12, 0x1), (13, 0x8), (14, 0x10)]

def first_flag (msta : Nat) : List (Nat × Nat) → Nat
  | [] => 0x1
  | (b, f) :: t => if msta &&& (1 <<< b) != 0 then f else first_flag msta t

def nomad_first_match (msta : Nat) : Nat := first_flag msta nomad_table

/- ===== EpicsProxy draft (src/src/EpicsProxy.cpp) ===== -/

def unsupported_msg : String :=
  "Unsupported data type. The supported data types are: d, f, t, s, h, A40_c, l"

/- EpicsProxy::get_pv (lines 72-94): create a fresh channel, pend,
check the handle and the connection state, then add the chid as a map
key with an empty event list when not already present. -/

def get_pv (pvName : String) : M Nat := do
  let ch ← ca_create_channel pvName
  ca_pend_io
  if ch = 0 then
    throw_error ("Failed to create channel for PV " ++ pvName)
  else do
    let conn ← ca_state_conn ch
    if conn = false then
      throw_error ("Channel for PV " ++ pvName ++ " is not connected")
    else do
      let s ← mget
      match lookupA s.emap ch with
      | some _ => pure ch
      | none => do
          mset { s with emap := s.emap ++ [(ch, [])] }
          pure ch

/- EpicsProxy::get_chid_list (lines 96-104). -/

def get_chid_list : M (List Nat) := fun s =>
  (.ok (s.emap.map (fun p => p.1)), s)

/- std::map operator[] followed by push_back-if-absent, as used at the
end of EpicsProxy::monitor_pv (lines 152-155). -/

def emap_push : List (Nat × List Nat) → Nat → Nat → List (Nat × List Nat)
  | [], ch, ev => [(ch, [ev])]
  | (c, evs) :: t, ch, ev =>
      if c = ch then (c, if evs.contains ev then evs else evs ++ [ev]) :: t
      else (c, evs) :: emap_push t ch ev

/- EpicsProxy::monitor_pv (lines 130-156).  When the chid is already a
map key the source returns element 0 of the event vector, which is an
out-of-bounds access when that vector is empty; on the path that
creates a subscription the source has no return statement, so control
falls off the end of a value-returning function. -/

def monitor_pv (ch : Nat) : M Nat := do
  let conn ← ca_state_conn ch
  if conn = false then do
    let n ← ca_name ch
    throw_error ("Channel for PV " ++ n ++ " is not connected")
  else do
    let s ← mget
    match lookupA s.emap ch with
    | some evs =>
        match evs.head? with
        | some e => pure e
        | none => mthrow .outOfBounds
    | none => do
        let ev ← ca_create_subscription ch
        ca_pend_io
        if ev = 0 then do
          let n ← ca_name ch
          throw_error ("Failed to create event ID for PV " ++ n)
        else do
          let s1 ← mget
          mset { s1 with emap := emap_push s1.emap ch ev }
          mthrow .undefinedBehavior

/- The search loop at the start of EpicsProxy::unmonitor_pv: the first
chid whose event list holds the event ID; when none does, the local
chid stays uninitialised. -/

def find_chid_of : List (Nat × List Nat) → Nat → Option Nat
  | [], _ => none
  | (c, evs) :: t, ev => if evs.contains ev then some c else find_chid_of t ev

/- std::remove + erase of one event ID from the list of one chid,
keeping the chid as a key (lines 182-185). -/

def emap_erase : List (Nat × List Nat) → Nat → Nat → List (Nat × List Nat)
  | [], _, _ => []
  | (c, evs) :: t, ch, ev =>
      if c = ch then (c, evs.filter (fun x => x != ev)) :: t
      else (c, evs) :: emap_erase t ch ev

/- EpicsProxy::unmonitor_pv (lines 158-186).  After the (successful)
ca_clear_subscription the source tests `m_eventID != NULL` on its own
unchanged argument, so for every real (non-null) event ID it throws
"Failed to destroy event ID", and the map clean-up below that check is
dead code.  When the event ID is on no channel, the chid local is read
uninitialised. -/

def unmonitor_pv (ev : Nat) : M Unit := do
  let s ← mget
  let found := find_chid_of s.emap ev
  ca_clear_subscription ev
  ca_pend_io
  if ev = 0 then
    match found with
    | some c => do
        let s1 ← mget
        mset { s1 with emap := emap_erase s1.emap c ev }
    | none => mthrow .undefinedBehavior
  else
    match found with
    | some c => do
        let n ← ca_name c
        throw_error ("Failed to destroy event ID for PV " ++ n)
    | none => mthrow .undefinedBehavior

/- The loop over the event list inside EpicsProxy::_clear_channel. -/

def unmonitor_list : List Nat → M Unit
  | [] => pure ()
  | e :: t => do
      unmonitor_pv e
      unmonitor_list t

/- std::map::erase of one key. -/

def emap_remove (l : List (Nat × List Nat)) (ch : Nat) : List (Nat × List Nat) :=
  l.filter (fun p => p.1 != ch)

/- EpicsProxy::_clear_channel (lines 210-231): unmonitor every event ID
of the chid, clear the channel, then test `m_chid != NULL` on the
unchanged argument - for every real handle this throws "Failed to clear
channel" (building the message from the already cleared chid), and the
map erase below it is dead code. -/

def _clear_channel (ch : Nat) : M Unit := do
  let s ← mget
  match lookupA s.emap ch with
  | some evs => unmonitor_list evs
  | none => pure ()
  ca_clear_channel ch
  ca_pend_io
  if ch = 0 then do
    let s1 ← mget
    mset { s1 with emap := emap_remove s1.emap ch }
  else do
    let n ← ca_name ch
    throw_error ("Failed to clear channel for PV " ++ n)

/- The loop inside EpicsProxy::~EpicsProxy. -/

def clear_all_channels : List Nat → M Unit
  | [] => pure ()
  | c :: t => do
      _clear_channel c
      clear_all_channels t

/- EpicsProxy::disconnect (lines 67-70). -/

def disconnect : M Unit := ca_context_destroy

/- EpicsProxy::~EpicsProxy (lines 44-52): clear every channel of the
chid list, then destroy the context. -/

def proxy_destructor : M Unit := do
  let l ← get_chid_list
  clear_all_channels l
  disconnect

/- EpicsProxy::_get<T> (lines 269-277): ca_get at the channel field
type, then pend. -/

def _get (ch : Nat) : M HostValue := do
  let t ← ca_field_type ch
  let v ← ca_get ch t
  ca_pend_io
  pure v

/- EpicsProxy::_get_string (lines 279-285). -/

def _get_string (ch : Nat) : M HostValue := do
  let v ← ca_get ch DBR_STRING
  ca_pend_io
  pure v

/- EpicsProxy::_read_pv (lines 233-267): reject a field type outside
allowed_types, require element count 1, then dispatch on the field
type over the seven handlers, with a final (unreachable) unsupported
branch. -/

def _read_pv (ch : Nat) : M HostValue := do
  let ft ← ca_field_type ch
  let n ← ca_name ch
  if (allowed_types.contains ft) = false then
    throw_error unsupported_msg
  else do
    let cnt ← ca_element_count ch
    if cnt ≠ 1 then
      throw_error ("The element count for PV " ++ n ++ " is not 1")
    else
      if ft = DBR_DOUBLE then _get ch
      else if ft = DBR_FLOAT then _get ch
      else if ft = DBR_ENUM then _get ch
      else if ft = DBR_SHORT then _get ch
      else if ft = DBR_CHAR then _get ch
      else if ft = DBR_STRING then _get_string ch
      else if ft = DBR_LONG then _get ch
      else mthrow (.runtimeError unsupported_msg)

/- EpicsProxy::_put / _put_string (lines 325-336). -/

def _put (ch : Nat) (v : HostValue) (t : Nat) : M Unit := do
  ca_put ch t v
  ca_pend_io

/- EpicsProxy::_write_pv (lines 287-323): reject a field type outside
allowed_types, reject vector values, then dispatch on the caller
supplied data-type string; each branch any_casts the value to the
matching host type before the put.  The negotiated field type of the
channel is never compared with the data-type string. -/

def _write_pv (ch : Nat) (value : HostValue) (dt : String) : M Unit := do
  let ft ← ca_field_type ch
  if (allowed_types.contains ft) = false then
    throw_error unsupported_msg
  else if value.isVector = true then do
    let n ← ca_name ch
    throw_error ("The value for PV " ++ n ++ " is an array")
  else if dt = "d" then
    match value with
    | .VDouble b => _put ch (.VDouble b) DBR_DOUBLE
    | _ => mthrow .badAnyCast
  else if dt = "f" then
    match value with
    | .VFloat b => _put ch (.VFloat b) DBR_FLOAT
    | _ => mthrow .badAnyCast
  else if dt = "t" then
    match value with
    | .VEnum v => _put ch (.VEnum v) DBR_ENUM
    | _ => mthrow .badAnyCast
  else if dt = "s" then
    match value with
    | .VShort v => _put ch (.VShort v) DBR_SHORT
    | _ => mthrow .badAnyCast
  else if dt = "h" then
    match value with
    | .VChar v => _put ch (.VChar v) DBR_CHAR
    | _ => mthrow .badAnyCast
  else if dt = "A40_c" then
    match value with
    | .VString cs => _put ch (.VString cs) DBR_STRING
    | _ => mthrow .badAnyCast
  else if dt = "l" then
    match value with
    | .VLong v => _put ch (.VLong v) DBR_LONG
    | _ => mthrow .badAnyCast
  else mthrow (.runtimeError unsupported_msg)

/- EpicsProxy::read_pv / write_pv by name (lines 188-196): each call
goes through get_pv, creating a fresh channel. -/

def read_pv (pvName : String) : M HostValue := do
  let ch ← get_pv pvName
  _read_pv ch

def write_pv (pvName : String) (v : HostValue) (dt : String) : M Unit := do
  let ch ← get_pv pvName
  _write_pv ch v dt

/- ===== PV draft (src/src/PV.cpp) ===== -/

/- The mutable members of one PV object of the PV.cpp draft. -/

structure PVData where
  pvName : String
  channel : Nat
  monitors : List Nat
deriving DecidableEq

/- PV::get_dbr_type (PV.cpp lines 161-183): map a typeid name to a DBR
tag; any other name is a hard error. -/

def get_dbr_type (tn : String) : Except Err Nat :=
  if tn = "d" then .ok DBR_DOUBLE
  else if tn = "f" then .ok DBR_FLOAT
  else if tn = "i" then .ok DBR_INT
  else if tn = "s" then .ok DBR_SHORT
  else if tn = "c" then .ok DBR_CHAR
  else if tn = "l" then .ok DBR_LONG
  else if tn = "m" then .ok DBR_LONG
  else if tn = "a" then .ok DBR_ENUM
  else if tn = "std::string" then .ok DBR_STRING
  else .error (.runtimeError ("Type " ++ tn ++ " not supported"))

/- The typeid names PV.cpp accepts. -/

def dbr_names : List String :=
  ["d", "f", "i", "s", "c", "l", "m", "a", "std::string"]

/- PV::_put_array (PV.cpp lines 101-112): allocate a buffer of
value.size() elements, read value[0] to derive the wire type from its
typeid name (an out-of-bounds access when the vector is empty), copy
the elements and ca_array_put exactly value.size() of them.  The
typeName argument stands for typeid(TypeValue).name(). -/

def ca_array_put (ch : Nat) (t : Nat) (n : Nat) : M Unit := fun s =>
  (.ok (), { s with trace := s.trace ++ [.arrayPutEv ch t n] })

def _put_array (p : PVData) (typeName : String) (value : List HostValue) : M Unit := do
  match value.head? with
  | none => mthrow .outOfBounds
  | some _ => do
      let ft ← liftE (get_dbr_type typeName)
      ca_array_put p.channel ft value.length
      ca_pend_io

/- The loop of PV::remove_monitor (PV.cpp lines 193-199). -/

def clear_events : List Nat → M Unit
  | [] => pure ()
  | m :: t => do
      ca_clear_subscription m
      ca_pend_io
      clear_events t

/- PV::remove_monitor: clear every monitor, then empty the list.
Safe on an empty list. -/

def remove_monitor (p : PVData) : M PVData := do
  clear_events p.monitors
  pure { p with monitors := [] }

/- PV::_clear_channel (PV.cpp lines 122-125): pend, then clear the
channel; no null check, no marking of the handle. -/

def pv_clear_channel (p : PVData) : M Unit := do
  ca_pend_io
  ca_clear_channel p.channel

/- PV::~PV (PV.cpp lines 19-22): remove_monitor(); clear_channel(). -/

def pv_destructor (p : PVData) : M PVData := do
  let p1 ← remove_monitor p
  pv_clear_channel p1
  pure p1

/- ===== Older header-only PV draft (src/include/PV.h) ===== -/

structure PVHData where
  pvName : String
  channel : Nat
deriving DecidableEq

/- PV::_clear_channel of the PV.h draft (lines 36-43): a null channel
handle returns silently; otherwise ca_clear_channel is issued.  Nothing
marks the handle as cleared. -/

def pvh_clear_channel (p : PVHData) : M Unit := do
  if p.channel = 0 then
    pure ()
  else
    ca_clear_channel p.channel

/- ===== Trace ordering predicates ===== -/

def is_clear_chan_for (c : Nat) : CAEvent → Bool
  | .clearChannel x => x = c
  | _ => false

def is_clear_sub_for (e : Nat) : CAEvent → Bool
  | .clearSubscription x => x = e
  | _ => false

def is_ctx_destroy : CAEvent → Bool
  | .contextDestroy => true
  | _ => false

def is_clear_chan_event : CAEvent → Bool
  | .clearChannel _ => true
  | _ => false

def is_create_chan_event : CAEvent → Bool
  | .createChannel _ _ => true
  | _ => false

def is_get_event : CAEvent → Bool
  | .getEv _ _ => true
  | _ => false

def is_put_event : CAEvent → Bool
  | .putEv _ _ _ => true
  | .arrayPutEv _ _ _ => true
  | _ => false

/- Index of the first event satisfying a predicate. -/

def first_idx (p : CAEvent → Bool) : List CAEvent → Option Nat
  | [] => none
  | e :: t => if p e then some 0 else (first_idx p t).map (fun i => i + 1)

/- The subscription e is cancelled strictly before position i. -/

def cancelled_before (t : List CAEvent) (e : Nat) (i : Nat) : Bool :=
  match first_idx (is_clear_sub_for e) t with
  | some j => decide (j < i)
  | none => false

/- For every channel of the map that the trace clears, all of its
subscriptions are cancelled earlier in the trace. -/

def subs_before_clear (emap : List (Nat × List Nat)) (t : List CAEvent) : Bool :=
  emap.all (fun ce =>
    match first_idx (is_clear_chan_for ce.1) t with
    | none => true
    | some i => ce.2.all (fun e => cancelled_before t e i))

/- When the trace destroys the context, every channel of the map is
cleared earlier in the trace. -/

def chans_before_destroy (emap : List (Nat × List Nat)) (t : List CAEvent) : Bool :=
  match first_idx is_ctx_destroy t with
  | none => true
  | some i => emap.all (fun ce =>
      match first_idx (is_clear_chan_for ce.1) t with
      | some j => decide (j < i)
      | none => false)

def destroy_count (t : List CAEvent) : Nat := t.countP is_ctx_destroy

/- ===== Well-formedness ===== -/

def nodupB : List Nat → Bool
  | [] => true
  | x :: t => (! t.contains x) && nodupB t

/- States reachable through get_pv / monitor_pv: every chid and evid of
the event map is a real (positive) handle and the map keys are
distinct. -/

def wf_st (s : St) : Bool :=
  s.emap.all (fun ce => decide (0 < ce.1) && ce.2.all (fun e => decide (0 < e)))
  && nodupB (s.emap.map (fun ce => ce.1))

/- ===== Derived type maps ===== -/

/- The data-type string of a host value, as the documentation of
EpicsProxy.cpp pairs them: double is d, float is f, enum is t, short is
s, char is h, string is A40_c, long is l; a vector has no scalar tag. -/

def tag_of_value : HostValue → Option String
  | .VDouble _ => some "d"
  | .VFloat _ => some "f"
  | .VEnum _ => some "t"
  | .VShort _ => some "s"
  | .VChar _ => some "h"
  | .VString _ => some "A40_c"
  | .VLong _ => some "l"
  | .VArray _ _ => none

/- The DBR tag each host type is transferred with in _write_pv. -/

def value_dbr : HostValue → Nat
  | .VDouble _ => DBR_DOUBLE
  | .VFloat _ => DBR_FLOAT
  | .VEnum _ => DBR_ENUM
  | .VShort _ => DBR_SHORT
  | .VChar _ => DBR_CHAR
  | .VString _ => DBR_STRING
  | .VLong _ => DBR_LONG
  | .VArray _ _ => 0

/- ===== Iterated read_pv / write_pv (for the channel-leak property) ===== -/

def read_step (name : String) (s : St) : St := (read_pv name s).2

def write_step (name : String) (v : HostValue) (dt : String) (s : St) : St :=
  (write_pv name v dt s).2

/- One by-name call against the proxy: a read_pv or a write_pv of the
same variable. -/

inductive RWOp where
  | readOp : RWOp
  | writeOp (v : HostValue) (dt : String) : RWOp

def rw_step (name : String) : RWOp → St → St
  | .readOp, s => read_step name s
  | .writeOp v dt, s => write_step name v dt s

def rw_iter (name : String) : List RWOp → St → St
  | [], s => s
  | op :: ops, s => rw_iter name ops (rw_step name op s)

/- Invariant under which read_pv / write_pv are iterated: the PV name
resolves on the server, handles are positive, and every registered
handle is below the next fresh one (so fresh handles are really
fresh). -/

def inv_read (s : St) (name : String) : Bool :=
  (lookupS s.server name).isSome
  && decide (0 < s.nextCh)
  && s.emap.all (fun ce => decide (ce.1 < s.nextCh))
  && s.chans.all (fun q => decide (q.1 < s.nextCh))
  && nodupB (s.emap.map (fun ce => ce.1))

/- ===== Concrete states used to evaluate the model ===== -/

/- A server with one connected PV named X, negotiated as a scalar
double. -/

def rec_double : PVRecord := { ftype := DBR_DOUBLE, count := 1, value := .VDouble 0 }

/- One channel (chid 1) to X, registered in the event map with an empty
event list, exactly as get_pv leaves it. -/

def st0 : St :=
  { server := [("X", rec_double)], chans := [(1, "X")], subs := [],
    nextCh := 2, nextEv := 1, emap := [(1, [])], perror := "",
    currentStatus := 0x1, trace := [] }

/- The same world after one subscription (evid 2) on chid 1. -/

def st_sub : St :=
  { st0 with emap := [(1, [2])], subs := [(2, 1)], nextEv := 3 }

/- A PV object of the PV.cpp draft watching X through chid 1 with one
monitor (evid 2). -/

def pv0 : PVData := { pvName := "X", channel := 1, monitors := [2] }

/- A PV object of the PV.h draft whose channel handle is null. -/

def pvh_null : PVHData := { pvName := "X", channel := 0 }

/- The seven data-type strings _write_pv dispatches on. -/

def write_tags : List String := ["d", "f", "t", "s", "h", "A40_c", "l"]

/- A server record negotiated at wire type 7 (DBR_PUT_ACKT territory),
outside the supported set. -/

def rec_bad : PVRecord := { ftype := 7, count := 1, value := .VDouble 0 }

/- st0 with the PV X negotiated outside the supported type set. -/

def st_bad : St := { st0 with server := [("X", rec_bad)] }

/- A server record for a fixed-length string PV. -/

def rec_str : PVRecord := { ftype := DBR_STRING, count := 1, value := .VString [] }

/- st0 with the PV X negotiated as a DBR_STRING scalar. -/

def st_str : St := { st0 with server := [("X", rec_str)] }

/- The channel-map entries n iterated read_pv / write_pv calls append:
n fresh chids starting at c, each registered with an empty event
list. -/

def fresh_entries (c : Nat) : Nat → List (Nat × List Nat)
  | 0 => []
  | n + 1 => (c, []) :: fresh_entries (c + 1) n

/- ===== Theorems ===== -/

@[simp] theorem M_bind_run {α β : Type} (x : M α) (f : α → M β) (s : St) :
    (x >>= f) s = match x s with
      | (.ok a, s1) => f a s1
      | (.error e, s1) => (.error e, s1) := rfl

@[simp] theorem M_pure_run {α : Type} (a : α) (s : St) :
    (pure a : M α) s = (.ok a, s) := rfl

/-- Claim C10: msta_to_nomad_status stores exactly one status flag into the
current status of the proxy: it tests MSTA bit positions 1, 2, 6, 7, 9, 10,
12, 13, 14 in that fixed order, takes only the first set bit (mapped
respectively to 0x10, 0x4, 0x2, 0x10, 0x1, 0x2, 0x1, 0x8, 0x10), never ORs
contributions from several set bits, stores 0x1 when none of those bits is
set, and is a deterministic function of the MSTA input alone. -/
theorem claim_C10_msta_translation :
    (∀ s msta, (msta_to_nomad_status s msta).currentStatus = msta_to_nomad msta)
  ∧ (∀ msta, msta_to_nomad msta = nomad_first_match msta)
  ∧ (∀ msta, msta_to_nomad msta ∈ [0x1, 0x2, 0x4, 0x8, 0x10]) := by
  refine ⟨fun s msta => rfl, fun msta => rfl, fun msta => ?_⟩
  unfold msta_to_nomad
  repeat' split
  all_goals decide

/-- Claim C2: the claim states that a second monitor_pv call on the same
connected channel returns the handle of the first call and leaves exactly one
live subscription.  The code cannot provide this: get_pv registers every chid
in the event map with an EMPTY event list, so the very first monitor_pv call
on a channel obtained from get_pv already finds the chid in the map and
returns element 0 of an empty vector - an out-of-bounds access that creates
no subscription at all.  This theorem evaluates the model at that failing
input: one channel freshly produced by get_pv. -/
theorem claim_C2_monitor_oob :
    monitor_pv 1 st0 = (.error .outOfBounds, st0) := by rfl

/-- Claim C7: the claim states that cancelling a subscription is idempotent
and never an error.  In the code, unmonitor_pv tests `m_eventID != NULL` on
its own unchanged argument AFTER the successful ca_clear_subscription, so
every call with a real event ID throws "Failed to destroy event ID" even
though the subscription was just cancelled, and the map clean-up that would
remove the event ID is dead code.  This theorem evaluates the model at the
failing input: the transport-level cancel is issued (the subscription list
empties and the trace records it), yet the call reports a runtime error and
the event map still holds the event ID. -/
theorem claim_C7_unmonitor_always_throws :
    unmonitor_pv 2 st_sub
      = (.error (.runtimeError ("Failed to destroy event ID for PV X")),
         { st_sub with subs := [],
                       perror := "Failed to destroy event ID for PV X\n",
                       trace := [.clearSubscription 2] }) := by rfl

/-- Claim C6 counterexample: the claim states that clearing a null channel
handle is an error, not a silent no-op.  In the PV.h draft, _clear_channel
returns silently when the handle is null: the call succeeds, no transport
call is issued and no error is raised. -/
theorem claim_C6_counterexample :
    pvh_clear_channel pvh_null st0 = (.ok (), st0) := by rfl

/-- Claim C6 (amended): clearing a null channel handle is a silent,
successful no-op, and the wrapper does not track that a handle has been
cleared: clearing a non-null handle twice succeeds and issues the
transport-level clear twice.  The clear-exactly-once discipline is not
enforced by the code. -/
theorem claim_C6_clear_not_tracked (p : PVHData) (s : St) :
    (p.channel = 0 → pvh_clear_channel p s = (.ok (), s))
  ∧ (p.channel ≠ 0 →
      ((do pvh_clear_channel p; pvh_clear_channel p : M Unit) s).1 = .ok ()
    ∧ ((do pvh_clear_channel p; pvh_clear_channel p : M Unit) s).2.trace
        = s.trace ++ [.clearChannel p.channel, .clearChannel p.channel]) := by
  constructor
  · intro h
    simp [pvh_clear_channel, h]
  · intro h
    simp [pvh_clear_channel, h, ca_clear_channel, M_bind_run]

/-- Claim C6 witness: the amended behaviour at concrete inputs - silent
success on the null handle, and a double transport clear of chid 1. -/
theorem claim_C6_witness :
    pvh_clear_channel pvh_null st0 = (.ok (), st0)
  ∧ ((do pvh_clear_channel { pvName := "X", channel := 1 }
         pvh_clear_channel { pvName := "X", channel := 1 } : M Unit) st0).2.trace
      = [.clearChannel 1, .clearChannel 1] :=
  ⟨(claim_C6_clear_not_tracked pvh_null st0).1 rfl,
   ((claim_C6_clear_not_tracked { pvName := "X", channel := 1 } st0).2 (by decide)).2⟩

/-- Claim C9: PV::write_array (_put_array) is only well defined when the
input vector is non-empty: it reads element 0 of the input to derive the
wire type before transferring, so the empty input performs an out-of-bounds
access and transfers nothing; for every non-empty input of n elements it
issues one array put of exactly n elements at the type derived from the
first element. -/
theorem claim_C9_put_array (p : PVData) (tn : String) (v : List HostValue) (s : St) :
    (v = [] → _put_array p tn v s = (.error .outOfBounds, s))
  ∧ (∀ ft, v ≠ [] → get_dbr_type tn = .ok ft →
      _put_array p tn v s
        = (.ok (), { s with trace := s.trace ++ [.arrayPutEv p.channel ft v.length] })) := by
  constructor
  · intro h
    subst h
    rfl
  · intro ft hne hdbr
    cases v with
    | nil => exact absurd rfl hne
    | cons a t =>
        simp [_put_array, liftE, hdbr, ca_array_put, ca_pend_io, M_bind_run]

/-- Claim C9 witness: the empty vector fails out of bounds, and a two-element
double vector is transferred as one array put of two elements at DBR_DOUBLE
on the channel of the PV. -/
theorem claim_C9_witness :
    _put_array pv0 ("d") [] st0 = (.error .outOfBounds, st0)
  ∧ _put_array pv0 ("d") [.VDouble 3, .VDouble 4] st0
      = (.ok (), { st0 with trace := [.arrayPutEv 1 DBR_DOUBLE 2] }) :=
  ⟨(claim_C9_put_array pv0 ("d") [] st0).1 rfl,
   (claim_C9_put_array pv0 ("d") [.VDouble 3, .VDouble 4] st0).2 DBR_DOUBLE
     (by decide) rfl⟩

/-- Claim C3 counterexample: the claim states that writing a value whose host
type does not map to the negotiated wire type fails with a type-mismatch
error and performs no transfer.  In the code the negotiated field type is
never compared with the caller-supplied data-type string: on a channel
negotiated as DBR_DOUBLE, writing a host short with tag "s" succeeds and
transfers the value with DBR_SHORT - a coerced write where the claim demands
a failure. -/
theorem claim_C3_counterexample :
    _write_pv 1 (.VShort 5) ("s") st0
      = (.ok (), { st0 with server := [("X", { rec_double with value := .VShort 5 })],
                            trace := [.putEv 1 DBR_SHORT (.VShort 5)] }) := by rfl

/-- Claim C3 (amended): _write_pv checks the value only against the
caller-supplied data-type string, never against the negotiated wire type of
the channel.  When the runtime type of the value does not match the supplied
tag, the call fails (bad any_cast, or the unsupported-tag error) before any
transfer, leaving the trace unchanged; when it does match (and the
negotiated field type is merely somewhere inside the supported set), the put
is issued with the type belonging to the tag, even when that differs from
the negotiated wire type of the channel. -/
theorem claim_C3_tag_checked_only :
    (∀ (s : St) (ch : Nat) (v : HostValue) (dt : String), tag_of_value v ≠ some dt →
        (∃ e, (_write_pv ch v dt s).1 = .error e)
      ∧ (_write_pv ch v dt s).2.trace = s.trace)
  ∧ (∀ (s : St) (ch : Nat) (r : PVRecord) (v : HostValue) (dt : String),
        chan_record s ch = some r → allowed_types.contains r.ftype = true →
        tag_of_value v = some dt →
        (_write_pv ch v dt s).1 = .ok ()
      ∧ (_write_pv ch v dt s).2.trace = s.trace ++ [.putEv ch (value_dbr v) v]) := by
  constructor
  · intro s ch v dt hmis
    cases hr : chan_record s ch with
    | none =>
        refine ⟨⟨.undefinedBehavior, ?_⟩, ?_⟩ <;>
          simp [_write_pv, M_bind_run, ca_field_type, hr]
    | some r =>
        have hn : ∃ nm, chan_name s ch = some nm := by
          unfold chan_record at hr
          cases hx : chan_name s ch with
          | none => rw [hx] at hr; cases hr
          | some nm => exact ⟨nm, rfl⟩
        obtain ⟨nm, hnm⟩ := hn
        simp only [_write_pv, M_bind_run, ca_field_type, hr, ca_name, hnm,
          M_pure_run]
        by_cases hA : allowed_types.contains r.ftype = false
        · rw [if_pos hA]
          exact ⟨⟨_, rfl⟩, rfl⟩
        · rw [if_neg hA]
          by_cases hV : v.isVector = true
          · rw [if_pos hV]
            simp [M_bind_run, ca_name, hnm, throw_error]
          · rw [if_neg hV]
            by_cases h1 : dt = "d"
            · rw [if_pos h1]
              cases v <;> simp_all [tag_of_value, mthrow]
            · rw [if_neg h1]
              by_cases h2 : dt = "f"
              · rw [if_pos h2]
                cases v <;> simp_all [tag_of_value, mthrow]
              · rw [if_neg h2]
                by_cases h3 : dt = "t"
                · rw [if_pos h3]
                  cases v <;> simp_all [tag_of_value, mthrow]
                · rw [if_neg h3]
                  by_cases h4 : dt = "s"
                  · rw [if_pos h4]
                    cases v <;> simp_all [tag_of_value, mthrow]
                  · rw [if_neg h4]
                    by_cases h5 : dt = "h"
                    · rw [if_pos h5]
                      cases v <;> simp_all [tag_of_value, mthrow]
                    · rw [if_neg h5]
                      by_cases h6 : dt = "A40_c"
                      · rw [if_pos h6]
                        cases v <;> simp_all [tag_of_value, mthrow]
                      · rw [if_neg h6]
                        by_cases h7 : dt = "l"
                        · rw [if_pos h7]
                          cases v <;> simp_all [tag_of_value, mthrow]
                        · rw [if_neg h7]
                          exact ⟨⟨_, rfl⟩, rfl⟩
  · intro s ch r v dt hr hallow htag
    have hn : ∃ nm, chan_name s ch = some nm := by
      unfold chan_record at hr
      cases hx : chan_name s ch with
      | none => rw [hx] at hr; cases hr
      | some nm => exact ⟨nm, rfl⟩
    obtain ⟨nm, hnm⟩ := hn
    have hmem : r.ftype ∈ allowed_types := by simpa using hallow
    cases v <;> simp [tag_of_value] at htag <;> subst htag <;>
      simp [_write_pv, M_bind_run, ca_field_type, hr, ca_name, hnm, M_pure_run,
        hmem, HostValue.isVector, _put, ca_put, ca_pend_io, value_dbr, mthrow]

/-- Claim C3 witness: at concrete inputs - writing a host float with tag "d"
on the double channel of st0 fails with a bad any_cast and leaves the trace
unchanged, while writing a host short with tag "s" on the same
DBR_DOUBLE-negotiated channel succeeds and transfers the value with
DBR_SHORT. -/
theorem claim_C3_witness :
    tag_of_value (.VFloat 9) ≠ some "d"
  ∧ (∃ e, (_write_pv 1 (.VFloat 9) ("d") st0).1 = .error e)
  ∧ (_write_pv 1 (.VFloat 9) ("d") st0).2.trace = st0.trace
  ∧ chan_record st0 1 = some rec_double
  ∧ allowed_types.contains rec_double.ftype = true
  ∧ tag_of_value (.VShort 5) = some "s"
  ∧ (_write_pv 1 (.VShort 5) ("s") st0).1 = .ok ()
  ∧ (_write_pv 1 (.VShort 5) ("s") st0).2.trace
      = st0.trace ++ [.putEv 1 (value_dbr (.VShort 5)) (.VShort 5)] := by
  refine ⟨by decide, ?_, ?_, by decide, by decide, by decide, ?_, ?_⟩
  · exact (claim_C3_tag_checked_only.1 st0 1 (.VFloat 9) ("d") (by decide)).1
  · exact (claim_C3_tag_checked_only.1 st0 1 (.VFloat 9) ("d") (by decide)).2
  · exact (claim_C3_tag_checked_only.2 st0 1 rec_double (.VShort 5) ("s")
      (by decide) (by decide) (by decide)).1
  · exact (claim_C3_tag_checked_only.2 st0 1 rec_double (.VShort 5) ("s")
      (by decide) (by decide) (by decide)).2

/-- Claim C4: type dispatch for read and write is exhaustive over exactly the
seven recognised wire-type tags and fails closed.  Every typeid name outside
the closed name set of get_dbr_type is a hard error and every accepted name
maps into the seven supported DBR tags (DBR_INT and DBR_SHORT are the same
tag, and the unsigned-long name m also lands on DBR_LONG); _read_pv rejects a
field type outside the supported set before any transfer, and on a supported
scalar field type selects exactly the one matching handler (a single get at
the field type of the channel); _write_pv raises a hard error on any
data-type string outside the seven, with no transfer and no fallback. -/
theorem claim_C4_closed_dispatch :
    (∀ tn, tn ∉ dbr_names →
        get_dbr_type tn = .error (.runtimeError ("Type " ++ tn ++ " not supported")))
  ∧ (∀ tn t, get_dbr_type tn = .ok t → t ∈ allowed_types)
  ∧ (∀ (s : St) (ch : Nat) (r : PVRecord), chan_record s ch = some r →
        allowed_types.contains r.ftype = false →
        (_read_pv ch s).1 = .error (.runtimeError unsupported_msg)
      ∧ (_read_pv ch s).2.trace = s.trace)
  ∧ (∀ (s : St) (ch : Nat) (r : PVRecord), chan_record s ch = some r →
        allowed_types.contains r.ftype = true → r.count = 1 →
        (_read_pv ch s).1 = .ok r.value
      ∧ (_read_pv ch s).2.trace = s.trace ++ [.getEv ch r.ftype])
  ∧ (∀ (s : St) (ch : Nat) (v : HostValue) (dt : String), dt ∉ write_tags →
        (∃ e, (_write_pv ch v dt s).1 = .error e)
      ∧ (_write_pv ch v dt s).2.trace = s.trace) := by
  refine ⟨fun tn h => ?_, fun tn t h => ?_, fun s ch r hr hC => ?_,
    fun s ch r hr hC hcnt => ?_, fun s ch v dt h => ?_⟩
  · simp only [dbr_names, List.mem_cons, List.mem_singleton, not_or] at h
    obtain ⟨h1, h2, h3, h4, h5, h6, h7, h8, h9⟩ := h
    simp [get_dbr_type, h1, h2, h3, h4, h5, h6, h7, h8, h9]
  · unfold get_dbr_type at h
    split_ifs at h <;>
      simp_all [allowed_types, DBR_DOUBLE, DBR_FLOAT, DBR_INT, DBR_SHORT,
        DBR_CHAR, DBR_LONG, DBR_ENUM, DBR_STRING]
  · have hn : ∃ nm, chan_name s ch = some nm := by
      unfold chan_record at hr
      cases hx : chan_name s ch with
      | none => rw [hx] at hr; cases hr
      | some nm => exact ⟨nm, rfl⟩
    obtain ⟨nm, hnm⟩ := hn
    simp only [_read_pv, M_bind_run, ca_field_type, hr, ca_name, hnm, M_pure_run]
    rw [if_pos hC]
    exact ⟨rfl, rfl⟩
  · have hn : ∃ nm, chan_name s ch = some nm := by
      unfold chan_record at hr
      cases hx : chan_name s ch with
      | none => rw [hx] at hr; cases hr
      | some nm => exact ⟨nm, rfl⟩
    obtain ⟨nm, hnm⟩ := hn
    have hmem : r.ftype ∈ allowed_types := by simpa using hC
    simp only [allowed_types, DBR_DOUBLE, DBR_FLOAT, DBR_ENUM, DBR_SHORT,
      DBR_CHAR, DBR_STRING, DBR_LONG, List.mem_cons, List.mem_singleton,
      List.mem_nil_iff, or_false] at hmem
    rcases hmem with h | h | h | h | h | h | h <;>
      simp [_read_pv, M_bind_run, ca_field_type, hr, ca_name, hnm, M_pure_run,
        ca_element_count, hcnt, _get, _get_string, ca_get, ca_pend_io, h,
        allowed_types, DBR_DOUBLE, DBR_FLOAT, DBR_ENUM, DBR_SHORT,
        DBR_CHAR, DBR_STRING, DBR_LONG]
  · simp only [write_tags, List.mem_cons, List.mem_singleton, List.mem_nil_iff,
      or_false, not_or] at h
    obtain ⟨h1, h2, h3, h4, h5, h6, h7⟩ := h
    cases hr : chan_record s ch with
    | none =>
        refine ⟨⟨.undefinedBehavior, ?_⟩, ?_⟩ <;>
          simp [_write_pv, M_bind_run, ca_field_type, hr]
    | some r =>
        have hn : ∃ nm, chan_name s ch = some nm := by
          unfold chan_record at hr
          cases hx : chan_name s ch with
          | none => rw [hx] at hr; cases hr
          | some nm => exact ⟨nm, rfl⟩
        obtain ⟨nm, hnm⟩ := hn
        simp only [_write_pv, M_bind_run, ca_field_type, hr, ca_name, hnm,
          M_pure_run]
        by_cases hA : allowed_types.contains r.ftype = false
        · rw [if_pos hA]
          exact ⟨⟨_, rfl⟩, rfl⟩
        · rw [if_neg hA]
          by_cases hV : v.isVector = true
          · rw [if_pos hV]
            simp [M_bind_run, ca_name, hnm, throw_error]
          · rw [if_neg hV, if_neg h1, if_neg h2, if_neg h3, if_neg h4,
              if_neg h5, if_neg h6, if_neg h7]
            exact ⟨⟨_, rfl⟩, rfl⟩

/-- Claim C4 witness: at concrete inputs - the unknown typeid name q is a
hard error; the accepted name d lands inside the supported set; a channel
negotiated at wire type 7 (outside the set) makes _read_pv fail with the
unsupported-type error and no transfer; the supported double channel of st0
reads through exactly one get at DBR_DOUBLE; and the unknown data-type
string x makes _write_pv fail with no transfer. -/
theorem claim_C4_witness :
    ("q" : String) ∉ dbr_names
  ∧ get_dbr_type ("q") = .error (.runtimeError ("Type q not supported"))
  ∧ get_dbr_type ("d") = .ok DBR_DOUBLE
  ∧ DBR_DOUBLE ∈ allowed_types
  ∧ chan_record st_bad 1 = some rec_bad
  ∧ allowed_types.contains rec_bad.ftype = false
  ∧ (_read_pv 1 st_bad).1 = .error (.runtimeError unsupported_msg)
  ∧ (_read_pv 1 st0).1 = .ok rec_double.value
  ∧ (_read_pv 1 st0).2.trace = st0.trace ++ [.getEv 1 rec_double.ftype]
  ∧ ("x" : String) ∉ write_tags
  ∧ (∃ e, (_write_pv 1 (.VDouble 3) ("x") st0).1 = .error e)
  ∧ (_write_pv 1 (.VDouble 3) ("x") st0).2.trace = st0.trace := by
  refine ⟨by decide, ?_, rfl, ?_, by decide, by decide, ?_, ?_, ?_, by decide, ?_, ?_⟩
  · exact claim_C4_closed_dispatch.1 ("q") (by decide)
  · exact claim_C4_closed_dispatch.2.1 ("d") DBR_DOUBLE rfl
  · exact (claim_C4_closed_dispatch.2.2.1 st_bad 1 rec_bad (by decide) (by decide)).1
  · exact (claim_C4_closed_dispatch.2.2.2.1 st0 1 rec_double (by decide) (by decide) rfl).1
  · exact (claim_C4_closed_dispatch.2.2.2.1 st0 1 rec_double (by decide) (by decide) rfl).2
  · exact (claim_C4_closed_dispatch.2.2.2.2 st0 1 (.VDouble 3) ("x") (by decide)).1
  · exact (claim_C4_closed_dispatch.2.2.2.2 st0 1 (.VDouble 3) ("x") (by decide)).2

/- Run characterisations shared by the round-trip development: a
successful typed write updates exactly the server record of the channel
and appends one put event; a successful scalar read returns the stored
value and appends one get event. -/

theorem lookupS_update_server {l : List (String × PVRecord)} {k : String} {r : PVRecord}
    (h : lookupS l k = some r) (t : Nat) (v : HostValue) :
    lookupS (update_server l k t v) k = some { r with value := put_store t v } := by
  induction l with
  | nil => cases h
  | cons p tl ih =>
      obtain ⟨k1, r1⟩ := p
      by_cases hk : k1 = k
      · subst hk
        simp [lookupS, update_server] at h ⊢
        simp [h]
      · simp [lookupS, update_server, hk] at h ⊢
        exact ih h

theorem write_run_ok (s : St) (ch : Nat) (nm : String) (r : PVRecord)
    (v : HostValue) (dt : String)
    (hnm : chan_name s ch = some nm)
    (hrs : lookupS s.server nm = some r)
    (hallow : allowed_types.contains r.ftype = true)
    (htag : tag_of_value v = some dt) :
    _write_pv ch v dt s
      = (.ok (), { s with server := update_server s.server nm (value_dbr v) v,
                          trace := s.trace ++ [.putEv ch (value_dbr v) v] }) := by
  have hr : chan_record s ch = some r := by simp [chan_record, hnm, hrs]
  have hmem : r.ftype ∈ allowed_types := by simpa using hallow
  cases v <;> simp [tag_of_value] at htag <;> subst htag <;>
    simp [_write_pv, M_bind_run, ca_field_type, hr, ca_name, hnm, M_pure_run,
      hmem, HostValue.isVector, _put, ca_put, ca_pend_io, value_dbr, mthrow]

theorem read_run_ok (s : St) (ch : Nat) (r : PVRecord)
    (hr : chan_record s ch = some r)
    (hC : allowed_types.contains r.ftype = true)
    (hcnt : r.count = 1) :
    _read_pv ch s = (.ok r.value, { s with trace := s.trace ++ [.getEv ch r.ftype] }) := by
  have hn : ∃ nm, chan_name s ch = some nm := by
    unfold chan_record at hr
    cases hx : chan_name s ch with
    | none => rw [hx] at hr; cases hr
    | some nm => exact ⟨nm, rfl⟩
  obtain ⟨nm, hnm⟩ := hn
  have hmem : r.ftype ∈ allowed_types := by simpa using hC
  simp only [allowed_types, DBR_DOUBLE, DBR_FLOAT, DBR_ENUM, DBR_SHORT,
    DBR_CHAR, DBR_STRING, DBR_LONG, List.mem_cons, List.mem_singleton,
    List.mem_nil_iff, or_false] at hmem
  rcases hmem with h | h | h | h | h | h | h <;>
    simp [_read_pv, M_bind_run, ca_field_type, hr, ca_name, hnm, M_pure_run,
      ca_element_count, hcnt, _get, _get_string, ca_get, ca_pend_io, h,
      allowed_types, DBR_DOUBLE, DBR_FLOAT, DBR_ENUM, DBR_SHORT,
      DBR_CHAR, DBR_STRING, DBR_LONG]

/-- Claim C5: for every one of the seven supported wire types and every value
v of the matching host type, on a channel whose negotiated wire type equals
the wire type of v and whose element count is 1, write(v) followed by read()
returns exactly v - bit-for-bit for the scalar carriers, byte-for-byte for
strings up to the fixed 39-character capacity of the 40-byte wire buffer. -/
theorem claim_C5_roundtrip (s : St) (ch : Nat) (nm : String) (r : PVRecord)
    (v : HostValue) (dt : String)
    (hnm : chan_name s ch = some nm)
    (hrs : lookupS s.server nm = some r)
    (htag : tag_of_value v = some dt)
    (hft : r.ftype = value_dbr v)
    (hcnt : r.count = 1)
    (hstr : ∀ cs, v = .VString cs → cs.length ≤ 39) :
    ((do _write_pv ch v dt; _read_pv ch : M HostValue) s).1 = .ok v := by
  have hallow : allowed_types.contains r.ftype = true := by
    rw [hft]; cases v <;> rfl
  have hw := write_run_ok s ch nm r v dt hnm hrs hallow htag
  have hrs2 := lookupS_update_server hrs (value_dbr v) v
  have hrec2 : chan_record { s with server := update_server s.server nm (value_dbr v) v,
                                    trace := s.trace ++ [.putEv ch (value_dbr v) v] } ch
      = some { r with value := put_store (value_dbr v) v } := by
    simp only [chan_record, chan_name]
    simp only [show lookupA ({ s with server := update_server s.server nm (value_dbr v) v,
                                      trace := s.trace ++ [.putEv ch (value_dbr v) v] } : St).chans ch
        = some nm from hnm]
    exact hrs2
  have hread := read_run_ok _ ch { r with value := put_store (value_dbr v) v } hrec2
    (by simpa [hft] using hallow) hcnt
  simp only [M_bind_run, hw, hread]
  cases v with
  | VString cs =>
      have h39 : cs.take 39 = cs := List.take_of_length_le (hstr cs rfl)
      simp [put_store, DBR_STRING, value_dbr, h39]
  | VDouble b => rfl
  | VFloat b => rfl
  | VEnum x => rfl
  | VShort x => rfl
  | VChar x => rfl
  | VLong x => rfl
  | VArray a b => simp [tag_of_value] at htag

/-- Claim C5 witness: the round trip at concrete inputs - a double through
the DBR_DOUBLE channel of st0 and a two-character string through the
DBR_STRING channel of st_str both come back exactly. -/
theorem claim_C5_witness :
    chan_name st0 1 = some ("X")
  ∧ lookupS st0.server ("X") = some rec_double
  ∧ tag_of_value (.VDouble 7) = some ("d")
  ∧ rec_double.ftype = value_dbr (.VDouble 7)
  ∧ rec_double.count = 1
  ∧ ((do _write_pv 1 (.VDouble 7) ("d"); _read_pv 1 : M HostValue) st0).1
      = .ok (.VDouble 7)
  ∧ ((do _write_pv 1 (.VString ['a', 'b']) ("A40_c"); _read_pv 1 : M HostValue) st_str).1
      = .ok (.VString ['a', 'b']) := by
  refine ⟨rfl, rfl, rfl, rfl, rfl, ?_, ?_⟩
  · exact claim_C5_roundtrip st0 1 ("X") rec_double (.VDouble 7) ("d")
      rfl rfl rfl rfl rfl (by intro cs h; simp at h)
  · exact claim_C5_roundtrip st_str 1 ("X") rec_str (.VString ['a', 'b']) ("A40_c")
      rfl rfl rfl rfl rfl (by intro cs h; cases h; decide)

theorem lookupA_filter_self {β : Type} (l : List (Nat × β)) (c : Nat) :
    lookupA (l.filter (fun p => p.1 != c)) c = none := by
  induction l with
  | nil => rfl
  | cons p t ih =>
      by_cases h : p.1 = c
      · simp [List.filter, h, ih]
      · have hb : (p.1 != c) = true := by simpa using h
        simp [List.filter, hb, lookupA, h, ih]

theorem subs_before_clear_single_sub (emap : List (Nat × List Nat)) (e : Nat) :
    subs_before_clear emap [.clearSubscription e] = true := by
  simp [subs_before_clear, List.all_eq_true, first_idx, is_clear_chan_for]

theorem chans_before_destroy_no_ctx (emap : List (Nat × List Nat)) (c : Nat) :
    chans_before_destroy emap [.clearChannel c] = true := by
  simp [chans_before_destroy, first_idx, is_ctx_destroy]

theorem first_idx_subs_then_chan (c : Nat) (ms : List Nat) :
    first_idx (is_clear_chan_for c)
        (ms.map CAEvent.clearSubscription ++ [CAEvent.clearChannel c]) = some ms.length := by
  induction ms with
  | nil => simp [first_idx, is_clear_chan_for]
  | cons m t ih => simp [first_idx, is_clear_chan_for, ih]

theorem first_idx_sub_mem (e : Nat) (ms : List Nat) (rest : List CAEvent) (h : e ∈ ms) :
    ∃ j, first_idx (is_clear_sub_for e) (ms.map CAEvent.clearSubscription ++ rest) = some j
       ∧ j < ms.length := by
  induction ms with
  | nil => cases h
  | cons m t ih =>
      by_cases hm : m = e
      · subst hm
        exact ⟨0, by simp [first_idx, is_clear_sub_for], by simp⟩
      · have he : e ∈ t := by
          cases h with
          | head => exact absurd rfl hm
          | tail _ h2 => exact h2
        obtain ⟨j, hj, hlt⟩ := ih he
        refine ⟨j + 1, ?_, by simp [List.length_cons]; omega⟩
        simp [first_idx, is_clear_sub_for, hm, hj]

theorem clear_events_run (ms : List Nat) (s : St) :
    (clear_events ms s).1 = .ok ()
  ∧ (clear_events ms s).2.trace = s.trace ++ ms.map CAEvent.clearSubscription := by
  induction ms generalizing s with
  | nil => simp [clear_events]
  | cons m t ih =>
      have := ih { s with subs := s.subs.filter (fun p => p.1 != m),
                          trace := s.trace ++ [.clearSubscription m] }
      simp only [clear_events, M_bind_run, ca_clear_subscription, ca_pend_io, M_pure_run]
      simp_all

theorem pv_destructor_trace (p : PVData) (s : St) :
    ((pv_destructor p s).2.trace
        = s.trace ++ p.monitors.map CAEvent.clearSubscription
            ++ [CAEvent.clearChannel p.channel])
  ∧ (pv_destructor p s).1 = .ok { p with monitors := [] } := by
  obtain ⟨h1, h2⟩ := clear_events_run p.monitors s
  cases hce : clear_events p.monitors s with
  | mk r1 s2 =>
      rw [hce] at h1 h2
      simp only at h1 h2
      subst h1
      simp only [pv_destructor, remove_monitor, pv_clear_channel, M_bind_run,
        M_pure_run, ca_pend_io, ca_clear_channel, hce]
      simp [h2, List.append_assoc]

theorem subs_before_clear_pv (c : Nat) (ms : List Nat) :
    subs_before_clear [(c, ms)]
        (ms.map CAEvent.clearSubscription ++ [CAEvent.clearChannel c]) = true := by
  simp only [subs_before_clear, List.all_cons, List.all_nil, Bool.and_true]
  rw [first_idx_subs_then_chan]
  rw [List.all_eq_true]
  intro e he
  obtain ⟨j, hj, hlt⟩ := first_idx_sub_mem e ms [CAEvent.clearChannel c] he
  simp [cancelled_before, hj, hlt]

theorem subs_before_clear_chan_no_subs (c : Nat) (rest : List (Nat × List Nat))
    (hne : c ∉ rest.map (fun ce => ce.1)) :
    subs_before_clear ((c, ([] : List Nat)) :: rest) [.clearChannel c] = true := by
  simp only [subs_before_clear, List.all_cons, Bool.and_eq_true]
  constructor
  · simp [first_idx, is_clear_chan_for]
  · rw [List.all_eq_true]
    intro ce hce
    have hne2 : ¬ (c = ce.1) := by
      intro h
      exact hne (h ▸ List.mem_map_of_mem (fun ce => ce.1) hce)
    simp [first_idx, is_clear_chan_for, hne2]

theorem proxy_destructor_ordering (s : St) (hwf : wf_st s = true) (h0 : s.trace = []) :
    subs_before_clear s.emap (proxy_destructor s).2.trace = true
  ∧ chans_before_destroy s.emap (proxy_destructor s).2.trace = true
  ∧ destroy_count (proxy_destructor s).2.trace ≤ 1 := by
  simp only [wf_st, Bool.and_eq_true] at hwf
  obtain ⟨hall, hnd⟩ := hwf
  cases hem : s.emap with
  | nil =>
      have hrun : (proxy_destructor s).2.trace = [.contextDestroy] := by
        simp [proxy_destructor, get_chid_list, clear_all_channels, disconnect,
          ca_context_destroy, M_bind_run, M_pure_run, hem, h0]
      simp only [hrun, hem]
      refine ⟨rfl, by simp [chans_before_destroy, first_idx, is_ctx_destroy],
        by decide⟩
  | cons ce rest =>
      obtain ⟨c, evs⟩ := ce
      have hc0 : ¬ (c = 0) := by
        rw [hem] at hall
        simp [List.all_cons] at hall
        omega
      cases hevs : evs with
      | nil =>
          have hrun : (proxy_destructor s).2.trace = s.trace ++ [.clearChannel c] := by
            simp only [proxy_destructor, get_chid_list, clear_all_channels,
              _clear_channel, unmonitor_list, disconnect, ca_context_destroy,
              M_bind_run, M_pure_run, mget, hem, hevs, List.map_cons,
              ca_clear_channel, ca_pend_io, ca_name, chan_name, lookupA,
              if_pos rfl, ite_true, if_neg hc0, lookupA_filter_self]
          simp only [hrun, h0, hem, hevs, List.nil_append]
          refine ⟨?_, chans_before_destroy_no_ctx _ c,
            by simp [destroy_count, is_ctx_destroy]⟩
          apply subs_before_clear_chan_no_subs
          rw [hem] at hnd
          simp [nodupB, List.map_cons] at hnd
          intro hmem
          obtain ⟨ce2, hce2, hfst⟩ := List.mem_map.mp hmem
          obtain ⟨c2, evs2⟩ := ce2
          simp at hfst
          subst hfst
          exact hnd.1 evs2 hce2
      | cons e es =>
          have he0 : ¬ (e = 0) := by
            rw [hem, hevs] at hall
            simp [List.all_cons] at hall
            omega
          have hcontains : ((e :: es).contains e) = true := by simp
          have hrun : (proxy_destructor s).2.trace = s.trace ++ [.clearSubscription e] := by
            cases hcn : lookupA s.chans c with
            | none =>
                simp only [proxy_destructor, get_chid_list, clear_all_channels,
                  _clear_channel, unmonitor_list, unmonitor_pv, find_chid_of,
                  disconnect, ca_context_destroy, M_bind_run, M_pure_run, mget,
                  hem, hevs, List.map_cons, ca_clear_subscription, ca_pend_io,
                  ca_name, chan_name, lookupA, if_pos rfl, ite_true, if_neg he0,
                  hcontains, hcn]
            | some nm =>
                simp only [proxy_destructor, get_chid_list, clear_all_channels,
                  _clear_channel, unmonitor_list, unmonitor_pv, find_chid_of,
                  disconnect, ca_context_destroy, M_bind_run, M_pure_run, mget,
                  hem, hevs, List.map_cons, ca_clear_subscription, ca_pend_io,
                  ca_name, chan_name, lookupA, if_pos rfl, ite_true, if_neg he0,
                  hcontains, hcn, throw_error]
          simp only [hrun, h0, hem, hevs, List.nil_append]
          exact ⟨subs_before_clear_single_sub _ e,
            by simp [chans_before_destroy, first_idx, is_ctx_destroy],
            by simp [destroy_count, is_ctx_destroy]⟩

/-- Claim C1: teardown follows strict reverse-dependency order on every exit
path of the modelled teardown code.  For the EpicsProxy destructor, starting
from any well-formed state: whenever the trace clears a channel, every
subscription registered on that channel in the event map is cancelled
earlier in the trace; whenever the trace destroys the context, every
registered channel is cleared earlier; and the context is destroyed at most
once (the early exits caused by the inverted error checks make most of these
orderings hold by cutting teardown short - a violating reordering never
happens).  For the PV draft, the destructor first cancels every monitor, in
order, and only then clears the channel, never touching the context. -/
theorem claim_C1_teardown_order (s : St) (hwf : wf_st s = true) (h0 : s.trace = []) :
    subs_before_clear s.emap (proxy_destructor s).2.trace = true
  ∧ chans_before_destroy s.emap (proxy_destructor s).2.trace = true
  ∧ destroy_count (proxy_destructor s).2.trace ≤ 1
  ∧ ∀ p : PVData,
        (pv_destructor p s).2.trace
          = p.monitors.map CAEvent.clearSubscription ++ [CAEvent.clearChannel p.channel]
      ∧ subs_before_clear [(p.channel, p.monitors)] ((pv_destructor p s).2.trace) = true
      ∧ destroy_count ((pv_destructor p s).2.trace) = 0 := by
  obtain ⟨h1, h2, h3⟩ := proxy_destructor_ordering s hwf h0
  refine ⟨h1, h2, h3, fun p => ?_⟩
  obtain ⟨ht, _⟩ := pv_destructor_trace p s
  rw [h0, List.nil_append] at ht
  rw [ht]
  refine ⟨rfl, subs_before_clear_pv _ _, ?_⟩
  rw [destroy_count, List.countP_append]
  have hz1 : List.countP is_ctx_destroy (p.monitors.map CAEvent.clearSubscription) = 0 := by
    rw [List.countP_eq_zero]
    intro a ha
    obtain ⟨m, _, rfl⟩ := List.mem_map.mp ha
    simp [is_ctx_destroy]
  have hz2 : List.countP is_ctx_destroy [CAEvent.clearChannel p.channel] = 0 := by
    simp [List.countP_cons, List.countP_nil, is_ctx_destroy]
  rw [hz1, hz2]

/-- Claim C1 witness: the orderings at a concrete world - one connected
channel (chid 1) carrying one subscription (evid 2) in the proxy event map,
and a PV object with one monitor. -/
theorem claim_C1_witness :
    wf_st st_sub = true
  ∧ subs_before_clear st_sub.emap (proxy_destructor st_sub).2.trace = true
  ∧ chans_before_destroy st_sub.emap (proxy_destructor st_sub).2.trace = true
  ∧ destroy_count (proxy_destructor st_sub).2.trace ≤ 1
  ∧ (pv_destructor pv0 st_sub).2.trace
      = pv0.monitors.map CAEvent.clearSubscription ++ [CAEvent.clearChannel pv0.channel] :=
  ⟨by decide,
   (claim_C1_teardown_order st_sub (by decide) rfl).1,
   (claim_C1_teardown_order st_sub (by decide) rfl).2.1,
   (claim_C1_teardown_order st_sub (by decide) rfl).2.2.1,
   ((claim_C1_teardown_order st_sub (by decide) rfl).2.2.2 pv0).1⟩

theorem lookupA_none_of_lt {β : Type} (l : List (Nat × β)) (c : Nat)
    (h : ∀ k ∈ l.map (fun p => p.1), k < c) :
    lookupA l c = none := by
  induction l with
  | nil => rfl
  | cons p t ih =>
      have hp : p.1 < c := h p.1 (by simp)
      have hne : ¬ (p.1 = c) := by omega
      simp only [lookupA, if_neg hne]
      exact ih (fun k hk => h k (by simp [hk]))

theorem lookupA_append_single {β : Type} (l : List (Nat × β)) (c : Nat) (v : β)
    (h : lookupA l c = none) :
    lookupA (l ++ [(c, v)]) c = some v := by
  induction l with
  | nil => simp [lookupA]
  | cons p t ih =>
      by_cases hp : p.1 = c
      · simp [lookupA, hp] at h
      · simp only [List.cons_append, lookupA, if_neg hp]
        exact ih (by simpa [lookupA, if_neg hp] using h)

theorem get_pv_run (name : String) (s : St)
    (hsrv : (lookupS s.server name).isSome = true)
    (h0 : 0 < s.nextCh)
    (hem : ∀ k ∈ s.emap.map (fun p => p.1), k < s.nextCh)
    (hcs : ∀ k ∈ s.chans.map (fun p => p.1), k < s.nextCh) :
    get_pv name s
      = (.ok s.nextCh,
         { s with nextCh := s.nextCh + 1,
                  chans := s.chans ++ [(s.nextCh, name)],
                  emap := s.emap ++ [(s.nextCh, [])],
                  trace := s.trace ++ [.createChannel name s.nextCh] }) := by
  have hnz : ¬ (s.nextCh = 0) := by omega
  have hlc : lookupA (s.chans ++ [(s.nextCh, name)]) s.nextCh = some name :=
    lookupA_append_single _ _ _ (lookupA_none_of_lt _ _ hcs)
  have hle : lookupA s.emap s.nextCh = none := lookupA_none_of_lt _ _ hem
  simp only [get_pv, M_bind_run, M_pure_run, ca_create_channel, ca_pend_io,
    if_neg hnz, ca_state_conn, chan_name, hlc, mget, mset, hle, hsrv]
  simp [mget, mset, hle]

theorem read_pv_frame (ch : Nat) (s : St) :
    (_read_pv ch s).2.server = s.server
  ∧ (_read_pv ch s).2.chans = s.chans
  ∧ (_read_pv ch s).2.emap = s.emap
  ∧ (_read_pv ch s).2.nextCh = s.nextCh
  ∧ (_read_pv ch s).2.trace.countP is_clear_chan_event
      = s.trace.countP is_clear_chan_event
  ∧ (_read_pv ch s).2.trace.countP is_create_chan_event
      = s.trace.countP is_create_chan_event := by
  cases hr : chan_record s ch with
  | none =>
      simp [_read_pv, M_bind_run, ca_field_type, hr]
  | some r =>
      have hn : ∃ nm, chan_name s ch = some nm := by
        unfold chan_record at hr
        cases hx : chan_name s ch with
        | none => rw [hx] at hr; cases hr
        | some nm => exact ⟨nm, rfl⟩
      obtain ⟨nm, hnm⟩ := hn
      cases hC : allowed_types.contains r.ftype with
      | false =>
          have hno : r.ftype ∉ allowed_types := by simpa using hC
          simp [_read_pv, M_bind_run, M_pure_run, ca_field_type, hr, ca_name,
            hnm, hC, hno, throw_error]
      | true =>
          have hmem : r.ftype ∈ allowed_types := by simpa using hC
          simp only [allowed_types, DBR_DOUBLE, DBR_FLOAT, DBR_ENUM, DBR_SHORT,
            DBR_CHAR, DBR_STRING, DBR_LONG, List.mem_cons, List.mem_singleton,
            List.mem_nil_iff, or_false] at hmem
          have hC2 : r.ftype ∈ allowed_types := by simpa using hC
          by_cases hcnt : r.count = 1
          · rcases hmem with h | h | h | h | h | h | h <;>
              simp [_read_pv, M_bind_run, M_pure_run, ca_field_type, hr, ca_name,
                hnm, hC, hC2, ca_element_count, hcnt, _get, _get_string, ca_get,
                ca_pend_io, h, allowed_types, DBR_DOUBLE, DBR_FLOAT, DBR_ENUM,
                DBR_SHORT, DBR_CHAR, DBR_STRING, DBR_LONG, List.countP_append,
                List.countP_cons, is_clear_chan_event, is_create_chan_event]
          · simp [_read_pv, M_bind_run, M_pure_run, ca_field_type, hr, ca_name,
              hnm, hC, hC2, ca_element_count, hcnt, throw_error]

theorem nodupB_append_single (l : List Nat) (c : Nat)
    (hlt : ∀ k ∈ l, k < c) (hnd : nodupB l = true) : nodupB (l ++ [c]) = true := by
  induction l with
  | nil => simp [nodupB]
  | cons x t ih =>
      simp only [nodupB, Bool.and_eq_true, Bool.not_eq_true'] at hnd
      obtain ⟨hx, ht⟩ := hnd
      simp at hx
      have hxc : x < c := hlt x (by simp)
      simp only [List.cons_append, nodupB, Bool.and_eq_true, Bool.not_eq_true']
      constructor
      · have hne : ¬ x ∈ t ++ [c] := by
          rw [List.mem_append]
          rintro (hm | hm)
          · exact hx hm
          · simp at hm; omega
        simpa using hne
      · exact ih (fun k hk => hlt k (by simp [hk])) ht

theorem read_step_effects (name : String) (s : St) (hinv : inv_read s name = true) :
    (read_step name s).emap = s.emap ++ [(s.nextCh, [])]
  ∧ (read_step name s).nextCh = s.nextCh + 1
  ∧ (read_step name s).trace.countP is_clear_chan_event
      = s.trace.countP is_clear_chan_event
  ∧ (read_step name s).trace.countP is_create_chan_event
      = s.trace.countP is_create_chan_event + 1
  ∧ inv_read (read_step name s) name = true := by
  simp only [inv_read, Bool.and_eq_true, decide_eq_true_eq, List.all_eq_true] at hinv
  obtain ⟨⟨⟨⟨hsrv, h0⟩, hem⟩, hcs⟩, hnd⟩ := hinv
  have hem2 : ∀ k ∈ s.emap.map (fun p => p.1), k < s.nextCh := by
    intro k hk
    obtain ⟨p, hp, rfl⟩ := List.mem_map.mp hk
    exact hem p hp
  have hcs2 : ∀ k ∈ s.chans.map (fun p => p.1), k < s.nextCh := by
    intro k hk
    obtain ⟨p, hp, rfl⟩ := List.mem_map.mp hk
    exact hcs p hp
  have hg := get_pv_run name s hsrv h0 hem2 hcs2
  obtain ⟨hf1, hf2, hf3, hf4, hf5, hf6⟩ := read_pv_frame s.nextCh
    { s with nextCh := s.nextCh + 1,
             chans := s.chans ++ [(s.nextCh, name)],
             emap := s.emap ++ [(s.nextCh, [])],
             trace := s.trace ++ [.createChannel name s.nextCh] }
  have hstep : read_step name s
      = (_read_pv s.nextCh
          { s with nextCh := s.nextCh + 1,
                   chans := s.chans ++ [(s.nextCh, name)],
                   emap := s.emap ++ [(s.nextCh, [])],
                   trace := s.trace ++ [.createChannel name s.nextCh] }).2 := by
    simp only [read_step, read_pv, M_bind_run, hg]
  rw [hstep]
  refine ⟨by rw [hf3], by rw [hf4], ?_, ?_, ?_⟩
  · rw [hf5]
    simp [List.countP_append, List.countP_cons, is_clear_chan_event]
  · rw [hf6]
    simp [List.countP_append, List.countP_cons, is_create_chan_event]
  · simp only [inv_read, Bool.and_eq_true, decide_eq_true_eq, List.all_eq_true]
    refine ⟨⟨⟨⟨?_, ?_⟩, ?_⟩, ?_⟩, ?_⟩
    · rw [hf1]; simpa using hsrv
    · rw [hf4]; simp
    · rw [hf3, hf4]
      intro p hp
      simp only at hp ⊢
      rcases List.mem_append.mp hp with h | h
      · have := hem p h; omega
      · simp at h
        subst h
        simp
    · rw [hf2, hf4]
      intro p hp
      simp only at hp ⊢
      rcases List.mem_append.mp hp with h | h
      · have := hcs p h; omega
      · simp at h
        subst h
        simp
    · rw [hf3]
      simp only [List.map_append, List.map_cons, List.map_nil]
      exact nodupB_append_single _ _ hem2 hnd

theorem fresh_entries_length (c n : Nat) : (fresh_entries c n).length = n := by
  induction n generalizing c with
  | zero => rfl
  | succ n ih => simp [fresh_entries, ih]

theorem lookupS_update_server_isSome (l : List (String × PVRecord)) (k : String)
    (t : Nat) (v : HostValue) (nm : String) :
    (lookupS (update_server l k t v) nm).isSome = (lookupS l nm).isSome := by
  induction l with
  | nil => rfl
  | cons p tl ih =>
      obtain ⟨k1, r1⟩ := p
      by_cases hk : k1 = k
      · subst hk
        by_cases hn : k1 = nm
        · simp [update_server, lookupS, hn]
        · simp [update_server, lookupS, hn]
      · simp only [update_server, if_neg hk]
        by_cases hn : k1 = nm
        · simp [lookupS, hn]
        · simp [lookupS, hn, ih]

/- Frame of _write_pv over every path: it never touches the channel
list, the event map or the handle counters; the server table keeps
exactly its keys (at most one record value is updated); the trace never
gains a channel creation or a channel clear. -/

theorem write_pv_frame (ch : Nat) (v : HostValue) (dt : String) (s : St) :
    (∀ nm2, (lookupS (_write_pv ch v dt s).2.server nm2).isSome
        = (lookupS s.server nm2).isSome)
  ∧ (_write_pv ch v dt s).2.chans = s.chans
  ∧ (_write_pv ch v dt s).2.emap = s.emap
  ∧ (_write_pv ch v dt s).2.nextCh = s.nextCh
  ∧ (_write_pv ch v dt s).2.trace.countP is_clear_chan_event
      = s.trace.countP is_clear_chan_event
  ∧ (_write_pv ch v dt s).2.trace.countP is_create_chan_event
      = s.trace.countP is_create_chan_event := by
  cases hr : chan_record s ch with
  | none =>
      simp [_write_pv, M_bind_run, ca_field_type, hr]
  | some r =>
      have hn : ∃ nm, chan_name s ch = some nm := by
        unfold chan_record at hr
        cases hx : chan_name s ch with
        | none => rw [hx] at hr; cases hr
        | some nm => exact ⟨nm, rfl⟩
      obtain ⟨nm, hnm⟩ := hn
      simp only [_write_pv, M_bind_run, ca_field_type, hr, ca_name, hnm,
        M_pure_run]
      by_cases hA : allowed_types.contains r.ftype = false
      · rw [if_pos hA]
        simp [throw_error]
      · rw [if_neg hA]
        by_cases hV : v.isVector = true
        · rw [if_pos hV]
          simp [M_bind_run, ca_name, hnm, throw_error]
        · rw [if_neg hV]
          by_cases h1 : dt = "d"
          · rw [if_pos h1]
            cases v <;>
              simp [_put, ca_put, ca_pend_io, M_bind_run, M_pure_run, hnm, mthrow,
                lookupS_update_server_isSome, List.countP_append, List.countP_cons,
                is_clear_chan_event, is_create_chan_event]
          · rw [if_neg h1]
            by_cases h2 : dt = "f"
            · rw [if_pos h2]
              cases v <;>
                simp [_put, ca_put, ca_pend_io, M_bind_run, M_pure_run, hnm, mthrow,
                  lookupS_update_server_isSome, List.countP_append, List.countP_cons,
                  is_clear_chan_event, is_create_chan_event]
            · rw [if_neg h2]
              by_cases h3 : dt = "t"
              · rw [if_pos h3]
                cases v <;>
                  simp [_put, ca_put, ca_pend_io, M_bind_run, M_pure_run, hnm, mthrow,
                    lookupS_update_server_isSome, List.countP_append, List.countP_cons,
                    is_clear_chan_event, is_create_chan_event]
              · rw [if_neg h3]
                by_cases h4 : dt = "s"
                · rw [if_pos h4]
                  cases v <;>
                    simp [_put, ca_put, ca_pend_io, M_bind_run, M_pure_run, hnm, mthrow,
                      lookupS_update_server_isSome, List.countP_append, List.countP_cons,
                      is_clear_chan_event, is_create_chan_event]
                · rw [if_neg h4]
                  by_cases h5 : dt = "h"
                  · rw [if_pos h5]
                    cases v <;>
                      simp [_put, ca_put, ca_pend_io, M_bind_run, M_pure_run, hnm, mthrow,
                        lookupS_update_server_isSome, List.countP_append, List.countP_cons,
                        is_clear_chan_event, is_create_chan_event]
                  · rw [if_neg h5]
                    by_cases h6 : dt = "A40_c"
                    · rw [if_pos h6]
                      cases v <;>
                        simp [_put, ca_put, ca_pend_io, M_bind_run, M_pure_run, hnm, mthrow,
                          lookupS_update_server_isSome, List.countP_append, List.countP_cons,
                          is_clear_chan_event, is_create_chan_event]
                    · rw [if_neg h6]
                      by_cases h7 : dt = "l"
                      · rw [if_pos h7]
                        cases v <;>
                          simp [_put, ca_put, ca_pend_io, M_bind_run, M_pure_run, hnm, mthrow,
                            lookupS_update_server_isSome, List.countP_append, List.countP_cons,
                            is_clear_chan_event, is_create_chan_event]
                      · rw [if_neg h7]
                        simp [mthrow]

theorem write_step_effects (name : String) (v : HostValue) (dt : String) (s : St)
    (hinv : inv_read s name = true) :
    (write_step name v dt s).emap = s.emap ++ [(s.nextCh, [])]
  ∧ (write_step name v dt s).nextCh = s.nextCh + 1
  ∧ (write_step name v dt s).trace.countP is_clear_chan_event
      = s.trace.countP is_clear_chan_event
  ∧ (write_step name v dt s).trace.countP is_create_chan_event
      = s.trace.countP is_create_chan_event + 1
  ∧ inv_read (write_step name v dt s) name = true := by
  simp only [inv_read, Bool.and_eq_true, decide_eq_true_eq, List.all_eq_true] at hinv
  obtain ⟨⟨⟨⟨hsrv, h0⟩, hem⟩, hcs⟩, hnd⟩ := hinv
  have hem2 : ∀ k ∈ s.emap.map (fun p => p.1), k < s.nextCh := by
    intro k hk
    obtain ⟨p, hp, rfl⟩ := List.mem_map.mp hk
    exact hem p hp
  have hcs2 : ∀ k ∈ s.chans.map (fun p => p.1), k < s.nextCh := by
    intro k hk
    obtain ⟨p, hp, rfl⟩ := List.mem_map.mp hk
    exact hcs p hp
  have hg := get_pv_run name s hsrv h0 hem2 hcs2
  obtain ⟨hf1, hf2, hf3, hf4, hf5, hf6⟩ := write_pv_frame s.nextCh v dt
    { s with nextCh := s.nextCh + 1,
             chans := s.chans ++ [(s.nextCh, name)],
             emap := s.emap ++ [(s.nextCh, [])],
             trace := s.trace ++ [.createChannel name s.nextCh] }
  have hstep : write_step name v dt s
      = (_write_pv s.nextCh v dt
          { s with nextCh := s.nextCh + 1,
                   chans := s.chans ++ [(s.nextCh, name)],
                   emap := s.emap ++ [(s.nextCh, [])],
                   trace := s.trace ++ [.createChannel name s.nextCh] }).2 := by
    simp only [write_step, write_pv, M_bind_run, hg]
  rw [hstep]
  refine ⟨by rw [hf3], by rw [hf4], ?_, ?_, ?_⟩
  · rw [hf5]
    simp [List.countP_append, List.countP_cons, is_clear_chan_event]
  · rw [hf6]
    simp [List.countP_append, List.countP_cons, is_create_chan_event]
  · simp only [inv_read, Bool.and_eq_true, decide_eq_true_eq, List.all_eq_true]
    refine ⟨⟨⟨⟨?_, ?_⟩, ?_⟩, ?_⟩, ?_⟩
    · rw [hf1]
      simpa using hsrv
    · rw [hf4]
      simp
    · rw [hf3, hf4]
      intro p hp
      simp only at hp ⊢
      rcases List.mem_append.mp hp with h | h
      · have := hem p h
        omega
      · simp at h
        subst h
        simp
    · rw [hf2, hf4]
      intro p hp
      simp only at hp ⊢
      rcases List.mem_append.mp hp with h | h
      · have := hcs p h
        omega
      · simp at h
        subst h
        simp
    · rw [hf3]
      simp only [List.map_append, List.map_cons, List.map_nil]
      exact nodupB_append_single _ _ hem2 hnd

theorem rw_step_effects (name : String) (op : RWOp) (s : St)
    (hinv : inv_read s name = true) :
    (rw_step name op s).emap = s.emap ++ [(s.nextCh, [])]
  ∧ (rw_step name op s).nextCh = s.nextCh + 1
  ∧ (rw_step name op s).trace.countP is_clear_chan_event
      = s.trace.countP is_clear_chan_event
  ∧ (rw_step name op s).trace.countP is_create_chan_event
      = s.trace.countP is_create_chan_event + 1
  ∧ inv_read (rw_step name op s) name = true := by
  cases op with
  | readOp => exact read_step_effects name s hinv
  | writeOp v dt => exact write_step_effects name v dt s hinv

theorem rw_iter_effects (name : String) (ops : List RWOp) :
    ∀ (s : St), inv_read s name = true →
    (rw_iter name ops s).emap = s.emap ++ fresh_entries s.nextCh ops.length
  ∧ (rw_iter name ops s).nextCh = s.nextCh + ops.length
  ∧ (rw_iter name ops s).trace.countP is_clear_chan_event
      = s.trace.countP is_clear_chan_event
  ∧ (rw_iter name ops s).trace.countP is_create_chan_event
      = s.trace.countP is_create_chan_event + ops.length
  ∧ inv_read (rw_iter name ops s) name = true := by
  induction ops with
  | nil =>
      intro s h
      simp [rw_iter, fresh_entries, h]
  | cons op ops ih =>
      intro s h
      obtain ⟨he, hn, hc1, hc2, hinv2⟩ := rw_step_effects name op s h
      obtain ⟨ihe, ihn, ihc1, ihc2, ihinv⟩ := ih (rw_step name op s) hinv2
      have hun : rw_iter name (op :: ops) s = rw_iter name ops (rw_step name op s) := rfl
      rw [hun]
      refine ⟨?_, ?_, ?_, ?_, ihinv⟩
      · rw [ihe, he, hn, List.append_assoc]
        rfl
      · rw [ihn, hn, List.length_cons]
        omega
      · rw [ihc1, hc1]
      · rw [ihc2, hc2, List.length_cons]
        omega

/-- Claim C8: every call to read_pv(name) or write_pv(name, value, type)
first creates a brand-new channel for the name through get_pv and registers
it in the channel-to-eventID map with an empty event list (the key is always
new because handles are fresh), and neither operation ever clears a channel
- so n such calls on the same variable, reads and writes in any mix, leave n
additional distinct live registered channels instead of reusing one handle:
the map grows by exactly the n fresh empty-list entries, its keys stay
pairwise distinct, and the trace gains exactly n channel creations and no
channel clear. -/
theorem claim_C8_fresh_channel_per_call (name : String) (s : St) (ops : List RWOp)
    (hinv : inv_read s name = true) :
    (rw_iter name ops s).emap = s.emap ++ fresh_entries s.nextCh ops.length
  ∧ (rw_iter name ops s).emap.length = s.emap.length + ops.length
  ∧ nodupB ((rw_iter name ops s).emap.map (fun ce => ce.1)) = true
  ∧ (rw_iter name ops s).trace.countP is_clear_chan_event
      = s.trace.countP is_clear_chan_event
  ∧ (rw_iter name ops s).trace.countP is_create_chan_event
      = s.trace.countP is_create_chan_event + ops.length := by
  obtain ⟨he, hn, hc1, hc2, hinv2⟩ := rw_iter_effects name ops s hinv
  refine ⟨he, ?_, ?_, hc1, hc2⟩
  · rw [he, List.length_append, fresh_entries_length]
  · simp only [inv_read, Bool.and_eq_true] at hinv2
    exact hinv2.2

/-- Claim C8 witness: a read, then a write of a double with tag d, then
another read of X starting from st0 (one registered channel, next handle 2)
leave the map with the original entry plus three fresh empty-list entries
for chids 2, 3, 4 - four distinct live registered channels - with three
channel creations and no channel clear in the trace. -/
theorem claim_C8_witness :
    inv_read st0 ("X") = true
  ∧ (rw_iter ("X") [.readOp, .writeOp (.VDouble 3) ("d"), .readOp] st0).emap
      = st0.emap ++ fresh_entries st0.nextCh 3
  ∧ (rw_iter ("X") [.readOp, .writeOp (.VDouble 3) ("d"), .readOp] st0).emap.length
      = st0.emap.length + 3
  ∧ nodupB ((rw_iter ("X") [.readOp, .writeOp (.VDouble 3) ("d"), .readOp] st0).emap.map
      (fun ce => ce.1)) = true
  ∧ (rw_iter ("X") [.readOp, .writeOp (.VDouble 3) ("d"), .readOp] st0).trace.countP
      is_clear_chan_event = st0.trace.countP is_clear_chan_event
  ∧ (rw_iter ("X") [.readOp, .writeOp (.VDouble 3) ("d"), .readOp] st0).trace.countP
      is_create_chan_event = st0.trace.countP is_create_chan_event + 3 :=
  ⟨by decide,
   (claim_C8_fresh_channel_per_call ("X") st0
     [.readOp, .writeOp (.VDouble 3) ("d"), .readOp] (by decide)).1,
   (claim_C8_fresh_channel_per_call ("X") st0
     [.readOp, .writeOp (.VDouble 3) ("d"), .readOp] (by decide)).2.1,
   (claim_C8_fresh_channel_per_call ("X") st0
     [.readOp, .writeOp (.VDouble 3) ("d"), .readOp] (by decide)).2.2.1,
   (claim_C8_fresh_channel_per_call ("X") st0
     [.readOp, .writeOp (.VDouble 3) ("d"), .readOp] (by decide)).2.2.2.1,
   (claim_C8_fresh_channel_per_call ("X") st0
     [.readOp, .writeOp (.VDouble 3) ("d"), .readOp] (by decide)).2.2.2.2⟩
